import Mathlib

/-!
# Verification of the Digigami `LoadingInteractionManager`

A shallow embedding of the timed interaction scheduler implemented by the
`LoadingInteractionManager` class (character poses, tips, fun facts,
verification prompts and feature suggestions shown during a loading wait).

Modelling conventions:
* JavaScript `null` / `undefined` values are modelled with `Option`.
* `Date.now()` timestamps and elapsed milliseconds are `Nat` arguments that the
  external driver supplies (`now`).
* `Math.random()` draws are modelled by a `Nat` argument `r`; the drawn index
  `Math.floor(Math.random() * arr.length)` is modelled as `r % arr.length`,
  which ranges over exactly the same indices.
* The `setInterval` / `setTimeout` timers are owned by the host environment;
  their callbacks are embedded as the explicit step functions `checkPhase`
  (the periodic tick) and `fireOneShot` (the 500 ms one-shot), which an
  external driver applies to the state.
* Callback invocations (`onInteraction`, `onPoseChange`,
  `onVerificationRequest`, `onFeatureDiscovery`) are recorded in an emitted
  event list, in invocation order.
* A JavaScript `TypeError` thrown when a category resolves to `undefined`
  (no character entry and no `default` entry) is modelled with `Except.error`.
-/

namespace LoadingInteraction

/-! ## Decimal rendering of an index

The source tracks used content with string keys built by template
interpolation: the key for index `i` under tag `t` is the string `"t-i"` with
`i` rendered in decimal.  `natStr` reproduces that decimal rendering with a
structural-fuel recursion so that it reduces inside the kernel. -/

/-- Decimal digits of `n`, least significant first, driven by structural fuel.
`digitsRevAux fuel n = Nat.digits 10 n` whenever `n ≤ fuel`. -/
def digitsRevAux : Nat → Nat → List Nat
  | 0, _ => []
  | _ + 1, 0 => []
  | fuel + 1, n + 1 => ((n + 1) % 10) :: digitsRevAux fuel ((n + 1) / 10)

/-- The decimal string a JavaScript template produces for a non-negative
integer `n` (e.g. `natStr 12 = "12"`). -/
def natStr (n : Nat) : String :=
  if n = 0 then "0"
  else String.mk (((digitsRevAux n n).map Nat.digitChar).reverse)

theorem digitsRevAux_eq_digits : ∀ (fuel n : Nat), n ≤ fuel →
    digitsRevAux fuel n = Nat.digits 10 n := by
  intro fuel
  induction fuel with
  | zero =>
    intro n hn
    interval_cases n
    simp [digitsRevAux]
  | succ fuel ih =>
    intro n hn
    match n with
    | 0 => simp [digitsRevAux]
    | m + 1 =>
      rw [digitsRevAux, Nat.digits_def' (by norm_num : 1 < 10) (Nat.succ_pos m)]
      congr 1
      exact ih _ (by
        have h1 : (m + 1) / 10 < m + 1 := Nat.div_lt_self (Nat.succ_pos m) (by norm_num)
        omega)

theorem digitChar_inj_lt_ten : ∀ d < 10, ∀ e < 10,
    Nat.digitChar d = Nat.digitChar e → d = e := by decide

theorem map_digitChar_inj : ∀ (l₁ l₂ : List Nat), (∀ x ∈ l₁, x < 10) →
    (∀ x ∈ l₂, x < 10) → l₁.map Nat.digitChar = l₂.map Nat.digitChar → l₁ = l₂ := by
  intro l₁
  induction l₁ with
  | nil =>
    intro l₂ _ _ h
    cases l₂ with
    | nil => rfl
    | cons b t => simp at h
  | cons a t ih =>
    intro l₂ h₁ h₂ h
    cases l₂ with
    | nil => simp at h
    | cons b t₂ =>
      simp only [List.map_cons, List.cons.injEq] at h
      have ha : a = b := digitChar_inj_lt_ten a (h₁ a (by simp)) b (h₂ b (by simp)) h.1
      have ht : t = t₂ := ih t₂ (fun x hx => h₁ x (by simp [hx]))
        (fun x hx => h₂ x (by simp [hx])) h.2
      rw [ha, ht]

theorem natStr_inj : ∀ (m n : Nat), natStr m = natStr n → m = n := by
  have digits_of_eq : ∀ (m n : Nat), m ≠ 0 → n ≠ 0 →
      natStr m = natStr n → Nat.digits 10 m = Nat.digits 10 n := by
    intro m n hm hn h
    unfold natStr at h
    rw [if_neg hm, if_neg hn] at h
    have hdata := congrArg String.data h
    simp only [String.data] at hdata
    have hrev := List.reverse_injective hdata
    rw [digitsRevAux_eq_digits m m le_rfl, digitsRevAux_eq_digits n n le_rfl] at hrev
    exact map_digitChar_inj _ _
      (fun x hx => Nat.digits_lt_base (by norm_num) hx)
      (fun x hx => Nat.digits_lt_base (by norm_num) hx) hrev
  intro m n h
  by_cases hm : m = 0 <;> by_cases hn : n = 0
  · rw [hm, hn]
  · exfalso
    unfold natStr at h
    rw [if_pos hm, if_neg hn] at h
    have hdata := congrArg String.data h.symm
    simp only [String.data] at hdata
    rw [digitsRevAux_eq_digits n n le_rfl] at hdata
    have hd : (Nat.digits 10 n).map Nat.digitChar = ['0'] := by
      have := congrArg List.reverse hdata
      simpa using this
    rcases hx : Nat.digits 10 n with _ | ⟨d, tl⟩
    · rw [hx] at hd; simp at hd
    · rw [hx] at hd
      cases tl with
      | nil =>
        simp only [List.map_cons, List.map_nil, List.cons.injEq] at hd
        have hd10 : d < 10 := Nat.digits_lt_base (by norm_num) (by rw [hx]; simp)
        have hd0 : d = 0 := digitChar_inj_lt_ten d hd10 0 (by norm_num) (by simpa using hd.1)
        have : n = 0 := by
          have h0 := Nat.ofDigits_digits 10 n
          rw [hx, hd0] at h0
          simpa [Nat.ofDigits] using h0.symm
        exact hn this
      | cons e tl₂ => simp at hd
  · exfalso
    unfold natStr at h
    rw [if_neg hm, if_pos hn] at h
    have hdata := congrArg String.data h
    simp only [String.data] at hdata
    rw [digitsRevAux_eq_digits m m le_rfl] at hdata
    have hd : (Nat.digits 10 m).map Nat.digitChar = ['0'] := by
      have := congrArg List.reverse hdata
      simpa using this
    rcases hx : Nat.digits 10 m with _ | ⟨d, tl⟩
    · rw [hx] at hd; simp at hd
    · rw [hx] at hd
      cases tl with
      | nil =>
        simp only [List.map_cons, List.map_nil, List.cons.injEq] at hd
        have hd10 : d < 10 := Nat.digits_lt_base (by norm_num) (by rw [hx]; simp)
        have hd0 : d = 0 := digitChar_inj_lt_ten d hd10 0 (by norm_num) (by simpa using hd.1)
        have : m = 0 := by
          have h0 := Nat.ofDigits_digits 10 m
          rw [hx, hd0] at h0
          simpa [Nat.ofDigits] using h0.symm
        exact hm this
      | cons e tl₂ => simp at hd
  · have := digits_of_eq m n hm hn h
    calc m = Nat.ofDigits 10 (Nat.digits 10 m) := (Nat.ofDigits_digits 10 m).symm
    _ = Nat.ofDigits 10 (Nat.digits 10 n) := by rw [this]
    _ = n := Nat.ofDigits_digits 10 n

/-! ## Used-interaction keys

The source records a draw of index `i` under tag `t` (the source calls the tag
parameter "prefix") as the string key `"t-i"` in the `usedInteractions` set. -/

/-- The key the source builds by template interpolation for tag `t`, index `i`. -/
def mkKey (tag : String) (i : Nat) : String :=
  tag ++ "-" ++ natStr i

theorem mkKey_inj (tag : String) : ∀ (i j : Nat), mkKey tag i = mkKey tag j → i = j := by
  intro i j h
  unfold mkKey at h
  have hdata := congrArg String.data h
  simp only [String.data_append] at hdata
  have := List.append_cancel_left hdata
  exact natStr_inj i j (String.ext this)

/-! ## Selection policy

`pickRandom` embeds `_pickRandom(arr)`: `arr[Math.floor(Math.random() * arr.length)]`,
with the random draw supplied as `r` and the chosen index `r % arr.length`.
On an empty array the JavaScript expression evaluates to `undefined`, i.e. `none`.

`pickUnused` embeds `_pickUnused(arr, prefix)`:
```js
const unused = arr.filter((_, i) => !this.usedInteractions.has(`${prefix}-${i}`));
if (unused.length === 0) return null;
const idx = arr.indexOf(this._pickRandom(unused));
this.usedInteractions.add(`${prefix}-${idx}`);
return arr[idx];
```
It returns the drawn item together with the updated `usedInteractions` set.
Note that the source looks the drawn item up again with `indexOf`, which finds
the *first* position holding an equal item. -/

/-- Embeds `_pickRandom`. -/
def pickRandom {α : Type} (arr : List α) (r : Nat) : Option α :=
  arr.get? (r % arr.length)

/-- The sub-array of items whose index key is not yet used
(`arr.filter((_, i) => !used.has(key))`). -/
def unusedOf {α : Type} (arr : List α) (tag : String) (used : Finset String) : List α :=
  (arr.enum.filter (fun p => decide (mkKey tag p.1 ∉ used))).map Prod.snd

/-- Embeds `_pickUnused`.  The source's `prefix` parameter is called `tag` here. -/
def pickUnused {α : Type} [DecidableEq α] (arr : List α) (tag : String)
    (used : Finset String) (r : Nat) : Option (α × Finset String) :=
  match pickRandom (unusedOf arr tag used) r with
  | none => none
  | some picked =>
    some (arr.getD (arr.indexOf picked) picked, insert (mkKey tag (arr.indexOf picked)) used)

/-- Successive calls to `_pickUnused` on one array and tag, threading the
`usedInteractions` set; one `Nat` of randomness per call.  Records each call's
return value (`none` = the call returned `null`). -/
def runPicks {α : Type} [DecidableEq α] (arr : List α) (tag : String) :
    List Nat → Finset String → List (Option α) × Finset String
  | [], used => ([], used)
  | r :: rs, used =>
    match pickUnused arr tag used r with
    | none => (none :: (runPicks arr tag rs used).1, (runPicks arr tag rs used).2)
    | some (x, used') => (some x :: (runPicks arr tag rs used').1, (runPicks arr tag rs used').2)

/-! ## Properties of the selection policy -/

theorem pickRandom_none_iff {α : Type} (arr : List α) (r : Nat) :
    pickRandom arr r = none ↔ arr = [] := by
  unfold pickRandom
  constructor
  · intro h
    cases arr with
    | nil => rfl
    | cons a t =>
      have hlt : r % (a :: t).length < (a :: t).length :=
        Nat.mod_lt _ (by simp)
      rw [List.get?_eq_getElem?, List.getElem?_eq_getElem hlt] at h
      simp at h
  · intro h
    subst h
    simp

theorem pickRandom_mem {α : Type} {arr : List α} {r : Nat} {x : α}
    (h : pickRandom arr r = some x) : x ∈ arr := by
  unfold pickRandom at h
  exact List.get?_mem h

theorem unusedOf_no_keys {α : Type} (arr : List α) (tag : String) (used : Finset String)
    (h : ∀ i < arr.length, mkKey tag i ∉ used) : unusedOf arr tag used = arr := by
  unfold unusedOf
  rw [List.filter_eq_self.mpr, List.enum_map_snd]
  intro p hp
  have hlt : p.1 < arr.length := by
    have := List.mem_enum_iff_getElem?.mp hp
    exact (List.getElem?_eq_some.mp this).1
  simpa using h p.1 hlt

theorem unusedOf_nodup {α : Type} (arr : List α) (tag : String) (used : Finset String)
    (hnd : arr.Nodup) : (unusedOf arr tag used).Nodup := by
  unfold unusedOf
  have hsub : List.Sublist
      ((arr.enum.filter (fun p => decide (mkKey tag p.1 ∉ used))).map Prod.snd)
      (arr.enum.map Prod.snd) := (List.filter_sublist _).map _
  rw [List.enum_map_snd] at hsub
  exact hnd.sublist hsub

theorem unusedOf_fst_nodup {α : Type} (arr : List α) (tag : String) (used : Finset String) :
    ((arr.enum.filter (fun p => decide (mkKey tag p.1 ∉ used))).map Prod.fst).Nodup := by
  have hsub : List.Sublist
      ((arr.enum.filter (fun p => decide (mkKey tag p.1 ∉ used))).map Prod.fst)
      (arr.enum.map Prod.fst) := (List.filter_sublist _).map _
  exact (List.nodup_enum_map_fst arr).sublist hsub

theorem mem_unusedOf_of_getElem {α : Type} (arr : List α) (tag : String)
    (used : Finset String) (i : Nat) (hi : i < arr.length)
    (hkey : mkKey tag i ∉ used) : arr[i] ∈ unusedOf arr tag used := by
  unfold unusedOf
  refine List.mem_map.mpr ⟨(i, arr[i]), ?_, rfl⟩
  refine List.mem_filter.mpr ⟨?_, by simpa using hkey⟩
  exact List.mk_mem_enum_iff_getElem?.mpr (List.getElem?_eq_getElem hi)

theorem mem_unusedOf {α : Type} {arr : List α} {tag : String} {used : Finset String}
    {x : α} (h : x ∈ unusedOf arr tag used) :
    ∃ i, ∃ (hi : i < arr.length), arr[i] = x ∧ mkKey tag i ∉ used := by
  unfold unusedOf at h
  obtain ⟨⟨i, y⟩, hmem, hy⟩ := List.mem_map.mp h
  obtain ⟨henum, hpred⟩ := List.mem_filter.mp hmem
  have hget := List.mk_mem_enum_iff_getElem?.mp henum
  have hi : i < arr.length := (List.getElem?_eq_some.mp hget).1
  refine ⟨i, hi, ?_, by simpa using hpred⟩
  have hay : arr[i] = y := by
    have := (List.getElem?_eq_some.mp hget).2
    simpa using this
  have hyx : y = x := hy
  rw [hay, hyx]

/-- What a successful `_pickUnused` call does: it marks and returns the item at
a previously unmarked index. -/
theorem pickUnused_some {α : Type} [DecidableEq α] {arr : List α} {tag : String}
    {used used' : Finset String} {r : Nat} {x : α} (hnd : arr.Nodup)
    (h : pickUnused arr tag used r = some (x, used')) :
    ∃ i, ∃ (hi : i < arr.length), arr[i] = x ∧ mkKey tag i ∉ used ∧
      used' = insert (mkKey tag i) used := by
  unfold pickUnused at h
  cases hrand : pickRandom (unusedOf arr tag used) r with
  | none => rw [hrand] at h; simp at h
  | some picked =>
    rw [hrand] at h
    simp only [Option.some.injEq, Prod.mk.injEq] at h
    obtain ⟨i, hi, hix, hkey⟩ := mem_unusedOf (pickRandom_mem hrand)
    have hidx : arr.indexOf picked = i := by
      rw [← hix]
      exact List.indexOf_getElem hnd i hi
    refine ⟨i, hi, ?_, hkey, ?_⟩
    · rw [← h.1, hidx, List.getD_eq_getElem arr picked hi, hix]
    · rw [← h.2, hidx]

theorem pickUnused_none_iff {α : Type} [DecidableEq α] (arr : List α) (tag : String)
    (used : Finset String) (r : Nat) :
    pickUnused arr tag used r = none ↔ unusedOf arr tag used = [] := by
  unfold pickUnused
  cases hrand : pickRandom (unusedOf arr tag used) r with
  | none => simpa using (pickRandom_none_iff _ r).mp hrand
  | some picked =>
    simp only []
    constructor
    · intro h; simp at h
    · intro h
      rw [h] at hrand
      simp [pickRandom] at hrand

/-- Removing one index key from consideration removes exactly the item at that
index from the unused sub-array (first-components of `enum` pairs are distinct,
and for a duplicate-free array so are the items). -/
theorem filter_ne_map_snd_erase {α : Type} [DecidableEq α] :
    ∀ (L : List (Nat × α)) (i : Nat) (x : α), (L.map Prod.fst).Nodup →
      (L.map Prod.snd).Nodup → (i, x) ∈ L →
      (L.filter (fun p => decide (p.1 ≠ i))).map Prod.snd = (L.map Prod.snd).erase x := by
  intro L
  induction L with
  | nil => intro i x _ _ hmem; simp at hmem
  | cons hd tl ih =>
    intro i x hfst hsnd hmem
    obtain ⟨j, y⟩ := hd
    simp only [List.map_cons, List.nodup_cons] at hfst hsnd
    rcases List.mem_cons.mp hmem with heq | htl
    · have hji : j = i := ((Prod.mk.injEq .. ▸ heq).1).symm
      have hyx : y = x := ((Prod.mk.injEq .. ▸ heq).2).symm
      subst hji; subst hyx
      rw [List.filter_cons_of_neg (by simp), List.map_cons, List.erase_cons_head]
      rw [List.filter_eq_self.mpr]
      intro p hp
      have : p.1 ∈ tl.map Prod.fst := List.mem_map.mpr ⟨p, hp, rfl⟩
      simp only [decide_eq_true_eq]
      intro hpj
      exact hfst.1 (hpj ▸ this)
    · have hji : j ≠ i := by
        intro hji
        exact hfst.1 (hji ▸ List.mem_map.mpr ⟨(i, x), htl, rfl⟩)
      have hyx : y ≠ x := by
        intro hyx
        exact hsnd.1 (hyx ▸ List.mem_map.mpr ⟨(i, x), htl, rfl⟩)
      rw [List.filter_cons_of_pos (by simpa using hji), List.map_cons, List.map_cons,
        List.erase_cons_tail (by simpa using hyx)]
      rw [ih i x hfst.2 hsnd.2 htl]

/-- Marking the key of index `i` removes exactly the item at index `i` from the
unused sub-array of a duplicate-free array. -/
theorem unusedOf_insert {α : Type} [DecidableEq α] {arr : List α} {tag : String}
    {used : Finset String} {i : Nat} (hnd : arr.Nodup) (hi : i < arr.length)
    (hkey : mkKey tag i ∉ used) :
    unusedOf arr tag (insert (mkKey tag i) used) = (unusedOf arr tag used).erase arr[i] := by
  have hsplit : unusedOf arr tag (insert (mkKey tag i) used) =
      ((arr.enum.filter (fun p => decide (mkKey tag p.1 ∉ used))).filter
        (fun p => decide (p.1 ≠ i))).map Prod.snd := by
    unfold unusedOf
    rw [List.filter_filter]
    congr 1
    apply List.filter_congr
    intro p _
    by_cases hp : mkKey tag p.1 ∈ used
    · simp [hp]
    · by_cases hpi : p.1 = i
      · simp [hpi, hp]
      · have : mkKey tag p.1 ≠ mkKey tag i := fun hc => hpi (mkKey_inj tag _ _ hc)
        simp [Finset.mem_insert, hp, hpi, this]
  rw [hsplit]
  exact filter_ne_map_snd_erase _ i arr[i] (unusedOf_fst_nodup arr tag used)
    (unusedOf_nodup arr tag used hnd)
    (List.mem_filter.mpr ⟨List.mk_mem_enum_iff_getElem?.mpr (List.getElem?_eq_getElem hi),
      by simpa using hkey⟩)

/-- Core induction for the no-repeat property: on a duplicate-free array,
as many successive `_pickUnused` calls as there are still-unused items succeed,
collectively return exactly the unused items (in some order), and leave the
array exhausted. -/
theorem runPicks_spec {α : Type} [DecidableEq α] (arr : List α) (tag : String)
    (hnd : arr.Nodup) :
    ∀ (rs : List Nat) (used : Finset String),
      rs.length = (unusedOf arr tag used).length →
      ∃ l : List α, (runPicks arr tag rs used).1 = l.map some ∧
        List.Perm l (unusedOf arr tag used) ∧
        unusedOf arr tag (runPicks arr tag rs used).2 = [] := by
  intro rs
  induction rs with
  | nil =>
    intro used hlen
    refine ⟨[], by simp [runPicks], ?_, ?_⟩
    · have : unusedOf arr tag used = [] := List.length_eq_zero.mp hlen.symm
      rw [this]
    · have : unusedOf arr tag used = [] := List.length_eq_zero.mp hlen.symm
      simpa [runPicks] using this
  | cons r rs ih =>
    intro used hlen
    have hne : unusedOf arr tag used ≠ [] := by
      intro hempty
      rw [hempty] at hlen
      simp at hlen
    cases hpick : pickUnused arr tag used r with
    | none => exact absurd ((pickUnused_none_iff arr tag used r).mp hpick) hne
    | some val =>
      obtain ⟨x, used'⟩ := val
      obtain ⟨i, hi, hix, hkey, hins⟩ := pickUnused_some hnd hpick
      have hxmem : x ∈ unusedOf arr tag used := by
        rw [← hix]
        exact mem_unusedOf_of_getElem arr tag used i hi hkey
      have herase : unusedOf arr tag used' = (unusedOf arr tag used).erase x := by
        rw [hins, unusedOf_insert hnd hi hkey, hix]
      have hlen' : rs.length = (unusedOf arr tag used').length := by
        rw [herase, List.length_erase_of_mem hxmem]
        simp at hlen
        omega
      obtain ⟨l', hl'eq, hl'perm, hl'empty⟩ := ih used' hlen'
      refine ⟨x :: l', ?_, ?_, ?_⟩
      · simp [runPicks, hpick, hl'eq]
      · refine List.Perm.trans (List.Perm.cons x ?_) (List.perm_cons_erase hxmem).symm
        rw [← herase]
        exact hl'perm
      · simpa [runPicks, hpick] using hl'empty

/-! ## Claim C1 -/

/-- C1 (amended): for a content list of `N` *pairwise-distinct* items and a tag,
`N` successive `pickUnused` calls within one session (starting from an empty
`usedInteractions` set, with any randomness) all succeed and return `N`
distinct items — a permutation of the whole list — and an `(N+1)`-th call
returns `none`.  (The distinctness restriction is forced: with duplicate items
the source's `indexOf` re-marks the first equal occurrence, see
`c1_counterexample`.) -/
theorem c1_pickUnused_no_repeat {α : Type} [DecidableEq α] (arr : List α) (tag : String)
    (hnd : arr.Nodup) (rs : List Nat) (hlen : rs.length = arr.length) :
    ∃ l : List α, (runPicks arr tag rs ∅).1 = l.map some ∧ List.Perm l arr ∧ l.Nodup ∧
      ∀ r, pickUnused arr tag (runPicks arr tag rs ∅).2 r = none := by
  have hempty : unusedOf arr tag ∅ = arr :=
    unusedOf_no_keys arr tag ∅ (by intro i _; simp)
  obtain ⟨l, heq, hperm, hfin⟩ := runPicks_spec arr tag hnd rs ∅ (by rw [hempty]; exact hlen)
  rw [hempty] at hperm
  refine ⟨l, heq, hperm, hperm.nodup_iff.mpr hnd, ?_⟩
  intro r
  exact (pickUnused_none_iff arr tag _ r).mpr hfin

/-- C1 witness: a concrete duplicate-free two-item list, drawn twice. -/
theorem c1_pickUnused_no_repeat_witness :
    ∃ l : List String, (runPicks ["a", "b"] "tip" [0, 0] ∅).1 = l.map some ∧
      List.Perm l ["a", "b"] ∧ l.Nodup ∧
      ∀ r, pickUnused ["a", "b"] "tip" (runPicks ["a", "b"] "tip" [0, 0] ∅).2 r = none :=
  c1_pickUnused_no_repeat ["a", "b"] "tip" (by decide) [0, 0] (by decide)

/-- C1 counterexample: on the two-item list `["a", "a"]` (duplicate items) the
claim fails: the second call repeats the item `"a"` drawn by the first call
(the two returned items are not distinct), and the third — `(N+1)`-th — call
still returns an item instead of `none`, because `indexOf` always re-marks
index 0 and index 1 is never recorded as used. -/
theorem c1_counterexample :
    (runPicks ["a", "a"] "tip" [0, 0, 0] ∅).1 = [some "a", some "a", some "a"] ∧
    (runPicks ["a", "a"] "tip" [0, 0, 0] ∅).1.get? 2 ≠ some none := by decide

/-! ## Content repository

`Content` embeds the object returned by `_getDefaultContent` / held in
`this.content`.  Character-keyed categories are association lists
(JavaScript objects keyed by character name, with a `"default"` entry);
`verifications` and `features` are flat lists. -/

/-- One entry of the `verifications` list. -/
structure Verification where
  question : String
  field : String
  type : String
  options : Option (List String) := none
deriving DecidableEq

/-- One entry of the `features` list. -/
structure Feature where
  id : String
  prompt : String
  description : String
  action : String
deriving DecidableEq

/-- The content repository (`this.content`). -/
structure Content where
  microPoses : List (String × List String)
  tips : List (String × List String)
  funFacts : List (String × List String)
  verifications : List Verification
  features : List Feature
deriving DecidableEq

/-- Resolution of a character-scoped category:
`this.content.cat[this.character] || this.content.cat.default`.
Arrays are always truthy in JavaScript (even when empty), so the fallback is
taken exactly when the character has no entry; `none` models the `undefined`
that results when the `default` entry is missing as well. -/
def resolveCategory (m : List (String × List String)) (character : String) :
    Option (List String) :=
  (m.lookup character).orElse (fun _ => m.lookup "default")

/-! ## Phase table

`this.phases`, in the object-entry order the source iterates with
`Object.entries`.  `max: Infinity` is modelled as `none`. -/

/-- Phase thresholds in milliseconds: `(name, min, max)`. -/
def phases : List (String × Nat × Option Nat) :=
  [("micro", 0, some 5000),
   ("tip", 5000, some 15000),
   ("fact", 15000, some 30000),
   ("verify", 30000, some 60000),
   ("discover", 60000, none)]

/-- Tests `elapsed >= range.min && elapsed < range.max` (with `max = Infinity ↦ none`
always satisfied on the right). -/
def inPhaseRange (elapsed lo : Nat) (hi : Option Nat) : Bool :=
  decide (lo ≤ elapsed) && (match hi with
    | none => true
    | some h => decide (elapsed < h))

/-- The `for … of Object.entries(this.phases)` loop of `_checkPhase`: the first
phase whose range contains `elapsed`, `none` if no range matches. -/
def findPhase (elapsed : Nat) : Option String :=
  (phases.find? (fun p => inPhaseRange elapsed p.2.1 p.2.2)).map Prod.fst

/-! ## Manager state and emitted events -/

/-- The mutable fields of a `LoadingInteractionManager` instance.  The interval
and timeout handles are owned by the host; their callbacks are the step
functions below. -/
structure ManagerState where
  character : String
  startTime : Option Nat
  processName : Option String
  estimatedDuration : Option Nat
  currentPhase : Option String
  usedInteractions : Finset String
  isActive : Bool
  content : Content
deriving DecidableEq

/-- The payload passed to `onInteraction`.  `pose = none` models an
`undefined` pose (possible on the micro path), `message = none` models
`null`. -/
structure InteractionEvent where
  type : String
  pose : Option String
  message : Option String
  field : Option String := none
  feature : Option String := none
deriving DecidableEq

/-- One external callback invocation. -/
inductive Event where
  | poseChange (composite : String) (pose : Option String)
  | interaction (e : InteractionEvent)
  | verificationRequest (v : Verification)
  | featureDiscovery (f : Feature)
deriving DecidableEq

/-- How a JavaScript template renders the pose argument: `undefined` prints as
the string `"undefined"`. -/
def poseStr : Option String → String
  | some p => p
  | none => "undefined"

/-- Embeds `_triggerPose`: composes `"{character}-{pose}"` and invokes
`onPoseChange(fullPose, pose)`. -/
def triggerPose (s : ManagerState) (pose : Option String) : List Event :=
  [Event.poseChange (s.character ++ "-" ++ poseStr pose) pose]

/-- Embeds `getElapsed`: `this.startTime ? Date.now() - this.startTime : 0`.
(`startTime` is a `Date.now()` epoch timestamp, so it is nonzero whenever set;
`some t` models "set".) -/
def getElapsed (s : ManagerState) (now : Nat) : Nat :=
  match s.startTime with
  | some t => now - t
  | none => 0

/-! ## Phase-entry actions -/

/-- Embeds `_triggerMicroInteraction`: resolves the character's micro-pose
list, draws with `_pickRandom` (no dedup bookkeeping), changes pose and emits
a `micro` interaction with a `null` message.  There is no guard against an
empty pose list: the draw's `undefined` flows into the pose events.  If the
category resolves to `undefined` (no character entry, no `default`), the
`arr.length` access inside `_pickRandom` throws. -/
def triggerMicroInteraction (s : ManagerState) (r : Nat) : Except String (List Event) :=
  match resolveCategory s.content.microPoses s.character with
  | none => Except.error "TypeError: poses is undefined"
  | some poses =>
    Except.ok (triggerPose s (pickRandom poses r) ++
      [Event.interaction { type := "micro", pose := pickRandom poses r, message := none }])

/-- Embeds `_triggerTip`: resolves tips, draws with `_pickUnused(tips, 'tip')`;
on a successful draw changes pose to `pointing` and emits the tip, on `null`
does nothing (but the category resolution itself can throw, as above). -/
def triggerTip (s : ManagerState) (r : Nat) : Except String (ManagerState × List Event) :=
  match resolveCategory s.content.tips s.character with
  | none => Except.error "TypeError: tips is undefined"
  | some tips =>
    match pickUnused tips "tip" s.usedInteractions r with
    | none => Except.ok (s, [])
    | some (tip, used') =>
      Except.ok ({ s with usedInteractions := used' },
        triggerPose s (some "pointing") ++
          [Event.interaction { type := "tip", pose := some "pointing", message := some tip }])

/-- Embeds `_triggerFunFact` (same shape as `_triggerTip`, category
`funFacts`, tag `'fact'`, pose `excited`). -/
def triggerFunFact (s : ManagerState) (r : Nat) : Except String (ManagerState × List Event) :=
  match resolveCategory s.content.funFacts s.character with
  | none => Except.error "TypeError: facts is undefined"
  | some facts =>
    match pickUnused facts "fact" s.usedInteractions r with
    | none => Except.ok (s, [])
    | some (fact, used') =>
      Except.ok ({ s with usedInteractions := used' },
        triggerPose s (some "excited") ++
          [Event.interaction { type := "fact", pose := some "excited", message := some fact }])

/-- Embeds `_triggerVerification`: draws from the flat `verifications` list
with tag `'verify'`; on success fires `onVerificationRequest` and then the
interaction event. -/
def triggerVerification (s : ManagerState) (r : Nat) :
    Except String (ManagerState × List Event) :=
  match pickUnused s.content.verifications "verify" s.usedInteractions r with
  | none => Except.ok (s, [])
  | some (v, used') =>
    Except.ok ({ s with usedInteractions := used' },
      triggerPose s (some "thinking") ++
        [Event.verificationRequest v,
         Event.interaction { type := "verify", pose := some "thinking",
                             message := some v.question, field := some v.field }])

/-- Embeds `_triggerFeatureDiscovery`: draws from the flat `features` list
with tag `'discover'`; on success fires `onFeatureDiscovery` and then the
interaction event. -/
def triggerFeatureDiscovery (s : ManagerState) (r : Nat) :
    Except String (ManagerState × List Event) :=
  match pickUnused s.content.features "discover" s.usedInteractions r with
  | none => Except.ok (s, [])
  | some (f, used') =>
    Except.ok ({ s with usedInteractions := used' },
      triggerPose s (some "pointing") ++
        [Event.featureDiscovery f,
         Event.interaction { type := "discover", pose := some "pointing",
                             message := some f.prompt, feature := some f.id }])

/-- Embeds `_triggerPhaseInteraction`: dispatch on the phase name (the switch
has no default action). -/
def triggerPhaseInteraction (s : ManagerState) (phase : String) (r : Nat) :
    Except String (ManagerState × List Event) :=
  match phase with
  | "micro" => (triggerMicroInteraction s r).map (fun evs => (s, evs))
  | "tip" => triggerTip s r
  | "fact" => triggerFunFact s r
  | "verify" => triggerVerification s r
  | "discover" => triggerFeatureDiscovery s r
  | _ => Except.ok (s, [])

/-! ## The periodic tick and the one-shot action -/

/-- Embeds `_checkPhase`, the `setInterval` callback: no-op while inactive;
otherwise find the phase containing the current elapsed time and, if it
differs from `currentPhase`, commit it and fire that phase's entry action
(the source assigns `this.currentPhase` before triggering). -/
def checkPhase (s : ManagerState) (now r : Nat) :
    Except String (ManagerState × List Event) :=
  if s.isActive = false then Except.ok (s, [])
  else
    match findPhase (getElapsed s now) with
    | some newPhase =>
      if s.currentPhase ≠ some newPhase then
        triggerPhaseInteraction { s with currentPhase := some newPhase } newPhase r
      else Except.ok (s, [])
    | none => Except.ok (s, [])

/-- Embeds the 500 ms `setTimeout` callback scheduled by `start`:
`if (this.isActive) this._triggerMicroInteraction()`. -/
def fireOneShot (s : ManagerState) (r : Nat) : Except String (ManagerState × List Event) :=
  if s.isActive then (triggerMicroInteraction s r).map (fun evs => (s, evs))
  else Except.ok (s, [])

/-! ## Session lifecycle -/

/-- Embeds `start(processName, estimatedDuration)`: records the start
timestamp, resets `currentPhase`, clears `usedInteractions`, sets the active
flag, and emits the initial `thinking` pose.  (The interval and the one-shot
are scheduled on the host; their callbacks are `checkPhase` and
`fireOneShot`.) -/
def start (s : ManagerState) (now : Nat) (processName : String)
    (estimatedDuration : Option Nat) : ManagerState × List Event :=
  ({ s with startTime := some now,
            processName := some processName,
            estimatedDuration := estimatedDuration,
            currentPhase := none,
            usedInteractions := ∅,
            isActive := true },
   triggerPose ({ s with startTime := some now, processName := some processName,
                         estimatedDuration := estimatedDuration, currentPhase := none,
                         usedInteractions := ∅, isActive := true }) (some "thinking"))

/-- The record `stop()` returns.  `duration = none` models the `NaN` that
`Date.now() - null` would produce if `stop` ran before any `start`. -/
structure StopSummary where
  duration : Option Nat
  interactionsShown : Nat
  phase : Option String
deriving DecidableEq

/-- Embeds `stop()`: clears the active flag (cancelling the host timers),
computes the summary and emits the terminal `excited` pose. -/
def stop (s : ManagerState) (now : Nat) : ManagerState × StopSummary × List Event :=
  ({ s with isActive := false },
   { duration := s.startTime.map (fun t => now - t),
     interactionsShown := s.usedInteractions.card,
     phase := s.currentPhase },
   triggerPose { s with isActive := false } (some "excited"))

/-- Embeds `setCharacter(character)`: swaps the character and, when a session
is active, immediately performs one ambient micro draw. -/
def setCharacter (s : ManagerState) (character : String) (r : Nat) :
    Except String (ManagerState × List Event) :=
  if ({ s with character := character } : ManagerState).isActive then
    (triggerMicroInteraction { s with character := character } r).map
      (fun evs => ({ s with character := character }, evs))
  else Except.ok ({ s with character := character }, [])

/-- A partial content override: `some` fields are the top-level categories
present in the argument of `loadContent`. -/
structure ContentPatch where
  microPoses : Option (List (String × List String)) := none
  tips : Option (List (String × List String)) := none
  funFacts : Option (List (String × List String)) := none
  verifications : Option (List Verification) := none
  features : Option (List Feature) := none
deriving DecidableEq

/-- Embeds `loadContent(content)`: `this.content = { ...this.content, ...content }`,
a top-level shallow merge — each category present in the patch replaces the
existing category wholesale. -/
def loadContent (c : Content) (patch : ContentPatch) : Content :=
  { microPoses := patch.microPoses.getD c.microPoses,
    tips := patch.tips.getD c.tips,
    funFacts := patch.funFacts.getD c.funFacts,
    verifications := patch.verifications.getD c.verifications,
    features := patch.features.getD c.features }

/-! ## Default content (`_getDefaultContent`) -/

/-- The default interaction content the constructor installs
(ASCII apostrophes in the original strings are written as `'`). -/
def defaultContent : Content :=
  { microPoses :=
      [("default", ["thinking", "excited", "default"]),
       ("kyur", ["thinking", "excited", "pointing", "default"]),
       ("gwynn", ["hammer-swing", "standing", "neutral", "jumping"]),
       ("urahara", ["fan", "cane", "thinking", "default"]),
       ("yoroiche", ["power", "standing", "kick", "default"])],
    tips :=
      [("default",
        ["Tip: Press Tab to autocomplete commands!",
         "Tip: You can customize my appearance in Settings.",
         "Tip: Try asking me to explain code - I love helping!",
         "Tip: I can help you write emails, documents, and more.",
         "Tip: Use keyboard shortcuts to work faster with me."]),
       ("kyur",
        ["Hey! Did you know you can ask me anything about code?",
         "Pro tip: I work best when you're specific about what you need.",
         "Try using natural language - I understand context pretty well!",
         "You can upload files and I'll analyze them for you.",
         "Ask me to review your code - I'll catch bugs you might miss!"]),
       ("gwynn",
        ["Forge ahead! Try exploring the advanced settings.",
         "Like a good hammer, use the right tool for the job.",
         "I can help you build amazing things - just ask!",
         "Don't forget to save your work regularly.",
         "Break down big tasks into smaller, manageable pieces."])],
    funFacts :=
      [("default",
        ["Fun fact: I was trained on a diverse dataset of code and text!",
         "Did you know? AI assistants like me improve through feedback.",
         "Here's something cool: I can understand over 100 programming languages!",
         "Fun fact: The name 'Digigami' combines 'digital' and 'origami'.",
         "Did you know? I can help with creative writing too, not just code!"]),
       ("kyur",
        ["Fun fact: I'm named after a mythical creature known for curiosity!",
         "Did you know? I've helped thousands of developers ship code faster.",
         "Here's something cool: I can learn your coding style over time!",
         "Fun fact: My favorite thing is solving tricky bugs.",
         "Did you know? I dream in code... well, if I could dream!"])],
    verifications :=
      [{ question := "Quick check - is your timezone still set correctly?",
         field := "timezone", type := "confirm" },
       { question := "While we wait... should I remember this preference for next time?",
         field := "remember_preference", type := "boolean" },
       { question := "Is this project name still accurate?",
         field := "project_name", type := "confirm" },
       { question := "Quick question - do you prefer detailed or concise responses?",
         field := "response_style", type := "choice",
         options := some ["Detailed", "Concise", "Depends on the task"] }],
    features :=
      [{ id := "security_scan",
         prompt := "While you wait, want me to run a quick security check on your project?",
         description := "Scans for common vulnerabilities and security issues",
         action := "runSecurityScan" },
       { id := "code_cleanup",
         prompt := "I could tidy up some code formatting while we wait. Interested?",
         description := "Auto-formats and cleans up code style",
         action := "runCodeCleanup" },
       { id := "dependency_check",
         prompt := "Want me to check if any of your dependencies have updates available?",
         description := "Checks for outdated packages and security patches",
         action := "checkDependencies" },
       { id := "performance_tips",
         prompt := "I noticed some potential performance improvements. Want to hear them?",
         description := "Analyzes code for performance optimization opportunities",
         action := "showPerformanceTips" },
       { id := "backup_reminder",
         prompt := "It's been a while since your last backup. Should I help set one up?",
         description := "Helps configure automatic backups",
         action := "setupBackup" }] }

/-- The constructor's initial field values (`options.character` defaults to
`'kyur'`; timers not yet scheduled; default content installed). -/
def initialState (character : String := "kyur") : ManagerState :=
  { character := character,
    startTime := none,
    processName := none,
    estimatedDuration := none,
    currentPhase := none,
    usedInteractions := ∅,
    isActive := false,
    content := defaultContent }

/-! ## Tick traces

An external driver fires the periodic tick repeatedly.  `runTrace` applies
`checkPhase` for each `(now, randomness)` sample, collecting the post-tick
state and the events of each tick.  An exception escaping a tick propagates to
the host timer and halts the run, so the trace simply ends there. -/

/-- Run a list of ticks, collecting each tick's resulting state and events. -/
def runTrace (s : ManagerState) : List (Nat × Nat) → List (ManagerState × List Event)
  | [] => []
  | (now, r) :: rest =>
    match checkPhase s now r with
    | Except.error _ => []
    | Except.ok (s', evs) => (s', evs) :: runTrace s' rest

/-- The position of a phase name in the configured phase order. -/
def phaseIdx (p : String) : Nat :=
  (phases.map Prod.fst).indexOf p

/-- Phase order on `currentPhase` values, with `none` (no phase entered yet)
before every phase. -/
def phaseIdxO : Option String → Nat
  | none => 0
  | some p => phaseIdx p + 1

/-- One tick keeps the phase or moves it strictly forward. -/
def phaseLE (a b : Option String) : Prop :=
  a = b ∨ phaseIdxO a < phaseIdxO b

/-- The phases newly entered along a sequence of `currentPhase` values:
each place where the value changes contributes the new value. -/
def enteredOf : List (Option String) → List String
  | a :: b :: rest => (if a ≠ b then b.toList else []) ++ enteredOf (b :: rest)
  | _ => []

theorem enteredOf_nil : enteredOf [] = [] := rfl

theorem enteredOf_single (a : Option String) : enteredOf [a] = [] := rfl

theorem enteredOf_cons₂ (a b : Option String) (rest : List (Option String)) :
    enteredOf (a :: b :: rest) = (if a ≠ b then b.toList else []) ++ enteredOf (b :: rest) :=
  rfl

/-- Closed form of the source's phase lookup on the default table. -/
def phaseNameAt (e : Nat) : String :=
  if e < 5000 then "micro"
  else if e < 15000 then "tip"
  else if e < 30000 then "fact"
  else if e < 60000 then "verify"
  else "discover"

theorem findPhase_eq (e : Nat) : findPhase e = some (phaseNameAt e) := by
  unfold findPhase phases phaseNameAt
  rcases Nat.lt_or_ge e 5000 with h1 | h1
  · simp [List.find?, inPhaseRange, h1]
  rcases Nat.lt_or_ge e 15000 with h2 | h2
  · have g1 : 5000 ≤ e := h1
    simp [List.find?, inPhaseRange, h2, g1, Nat.not_lt.mpr h1]
  rcases Nat.lt_or_ge e 30000 with h3 | h3
  · have g1 : 5000 ≤ e := by omega
    have g2 : 15000 ≤ e := h2
    simp [List.find?, inPhaseRange, h3, g1, g2, Nat.not_lt.mpr h1, Nat.not_lt.mpr h2]
  rcases Nat.lt_or_ge e 60000 with h4 | h4
  · have g1 : 5000 ≤ e := by omega
    have g2 : 15000 ≤ e := by omega
    have g3 : 30000 ≤ e := h3
    simp [List.find?, inPhaseRange, h4, g1, g2, g3, Nat.not_lt.mpr h1, Nat.not_lt.mpr h2,
      Nat.not_lt.mpr h3]
  · have g1 : 5000 ≤ e := by omega
    have g2 : 15000 ≤ e := by omega
    have g3 : 30000 ≤ e := by omega
    have g4 : 60000 ≤ e := h4
    simp [List.find?, inPhaseRange, g1, g2, g3, g4, Nat.not_lt.mpr h1, Nat.not_lt.mpr h2,
      Nat.not_lt.mpr h3, Nat.not_lt.mpr h4]

theorem phaseIdx_micro : phaseIdx "micro" = 0 := by decide
theorem phaseIdx_tip : phaseIdx "tip" = 1 := by decide
theorem phaseIdx_fact : phaseIdx "fact" = 2 := by decide
theorem phaseIdx_verify : phaseIdx "verify" = 3 := by decide
theorem phaseIdx_discover : phaseIdx "discover" = 4 := by decide

/-- Later elapsed times can only name later (or equal) phases, and a genuine
name change is a strict advance in phase order. -/
theorem phaseNameAt_strict (e e' : Nat) (hle : e ≤ e')
    (hne : phaseNameAt e ≠ phaseNameAt e') :
    phaseIdx (phaseNameAt e) < phaseIdx (phaseNameAt e') := by
  unfold phaseNameAt at hne ⊢
  split_ifs at hne ⊢ <;>
    simp_all [phaseIdx_micro, phaseIdx_tip, phaseIdx_fact, phaseIdx_verify,
      phaseIdx_discover] <;>
    omega

theorem enteredOf_aux : ∀ (cs : List (Option String)) (a : Option String),
    List.Chain' phaseLE (a :: cs) →
    (∀ q ∈ enteredOf (a :: cs), phaseIdxO a < phaseIdxO (some q)) ∧
    (enteredOf (a :: cs)).Pairwise (fun p q => phaseIdxO (some p) < phaseIdxO (some q)) := by
  intro cs
  induction cs with
  | nil => intro a _; simp [enteredOf_single]
  | cons b rest ih =>
    intro a hchain
    rw [List.chain'_cons] at hchain
    obtain ⟨hab, hchain'⟩ := hchain
    obtain ⟨ih1, ih2⟩ := ih b hchain'
    by_cases heq : a = b
    · subst heq
      constructor
      · intro q hq
        rw [enteredOf_cons₂, if_neg (by simp)] at hq
        exact ih1 q (by simpa using hq)
      · rw [enteredOf_cons₂, if_neg (by simp)]
        simpa using ih2
    · have hlt : phaseIdxO a < phaseIdxO b := by
        rcases hab with h | h
        · exact absurd h heq
        · exact h
      constructor
      · intro q hq
        rw [enteredOf_cons₂, if_pos heq] at hq
        rw [List.mem_append] at hq
        rcases hq with hq | hq
        · cases b with
          | none => simp [Option.toList] at hq
          | some p =>
            simp only [Option.toList, List.mem_singleton] at hq
            subst hq
            exact hlt
        · exact Nat.lt_trans hlt (ih1 q hq)
      · rw [enteredOf_cons₂, if_pos heq]
        cases b with
        | none => simpa [Option.toList] using ih2
        | some p =>
          simp only [Option.toList, List.singleton_append]
          exact List.Pairwise.cons (fun q hq => ih1 q hq) ih2

theorem enteredOf_nodup (cs : List (Option String)) (h : List.Chain' phaseLE cs) :
    (enteredOf cs).Nodup := by
  cases cs with
  | nil => simp [enteredOf_nil]
  | cons a rest =>
    have hp := (enteredOf_aux rest a h).2
    refine hp.imp ?_
    intro p q hlt heq
    subst heq
    exact Nat.lt_irrefl _ hlt

/-! ## Structural lemmas about the triggers and the tick -/

theorem pickUnused_used_subset {α : Type} [DecidableEq α] {arr : List α} {tag : String}
    {used used' : Finset String} {r : Nat} {x : α}
    (h : pickUnused arr tag used r = some (x, used')) : used ⊆ used' := by
  unfold pickUnused at h
  cases hrand : pickRandom (unusedOf arr tag used) r with
  | none => rw [hrand] at h; simp at h
  | some picked =>
    rw [hrand] at h
    simp only [Option.some.injEq, Prod.mk.injEq] at h
    rw [← h.2]
    exact Finset.subset_insert _ _

/-- A phase-entry action never touches the lifecycle or configuration fields,
only grows the used-key set, and every interaction event it emits carries the
phase's own type. -/
theorem triggerPhaseInteraction_ok {s : ManagerState} {p : String} {r : Nat}
    {s' : ManagerState} {evs : List Event}
    (h : triggerPhaseInteraction s p r = Except.ok (s', evs)) :
    s'.currentPhase = s.currentPhase ∧ s'.isActive = s.isActive ∧
    s'.startTime = s.startTime ∧ s'.character = s.character ∧ s'.content = s.content ∧
    s.usedInteractions ⊆ s'.usedInteractions ∧
    (∀ ie, Event.interaction ie ∈ evs → ie.type = p) := by
  unfold triggerPhaseInteraction at h
  split at h
  · -- micro
    cases hm : triggerMicroInteraction s r with
    | error e => rw [hm] at h; simp [Except.map] at h
    | ok evs₀ =>
      rw [hm] at h
      simp only [Except.map, Except.ok.injEq, Prod.mk.injEq] at h
      obtain ⟨hs, hevs⟩ := h
      subst hs
      refine ⟨rfl, rfl, rfl, rfl, rfl, Finset.Subset.refl _, ?_⟩
      intro ie hie
      unfold triggerMicroInteraction at hm
      cases hres : resolveCategory s.content.microPoses s.character with
      | none => rw [hres] at hm; simp at hm
      | some poses =>
        rw [hres] at hm
        dsimp only at hm
        simp only [Except.ok.injEq] at hm
        rw [← hevs, ← hm] at hie
        simp only [triggerPose, List.mem_append, List.mem_singleton] at hie
        rcases hie with hie | hie
        · simp at hie
        · cases hie
          rfl
  · -- tip
    unfold triggerTip at h
    cases hres : resolveCategory s.content.tips s.character with
    | none => rw [hres] at h; simp at h
    | some tips =>
      rw [hres] at h
      dsimp only at h
      cases hpick : pickUnused tips "tip" s.usedInteractions r with
      | none =>
        rw [hpick] at h
        simp only [Except.ok.injEq, Prod.mk.injEq] at h
        obtain ⟨hs, hevs⟩ := h
        subst hs
        exact ⟨rfl, rfl, rfl, rfl, rfl, Finset.Subset.refl _, by simp [← hevs]⟩
      | some val =>
        obtain ⟨tip, used'⟩ := val
        rw [hpick] at h
        simp only [Except.ok.injEq, Prod.mk.injEq] at h
        obtain ⟨hs, hevs⟩ := h
        subst hs
        refine ⟨rfl, rfl, rfl, rfl, rfl, pickUnused_used_subset hpick, ?_⟩
        intro ie hie
        rw [← hevs] at hie
        simp only [triggerPose, List.mem_append, List.mem_singleton] at hie
        rcases hie with hie | hie
        · simp at hie
        · cases hie
          rfl
  · -- fact
    unfold triggerFunFact at h
    cases hres : resolveCategory s.content.funFacts s.character with
    | none => rw [hres] at h; simp at h
    | some facts =>
      rw [hres] at h
      dsimp only at h
      cases hpick : pickUnused facts "fact" s.usedInteractions r with
      | none =>
        rw [hpick] at h
        simp only [Except.ok.injEq, Prod.mk.injEq] at h
        obtain ⟨hs, hevs⟩ := h
        subst hs
        exact ⟨rfl, rfl, rfl, rfl, rfl, Finset.Subset.refl _, by simp [← hevs]⟩
      | some val =>
        obtain ⟨fact, used'⟩ := val
        rw [hpick] at h
        simp only [Except.ok.injEq, Prod.mk.injEq] at h
        obtain ⟨hs, hevs⟩ := h
        subst hs
        refine ⟨rfl, rfl, rfl, rfl, rfl, pickUnused_used_subset hpick, ?_⟩
        intro ie hie
        rw [← hevs] at hie
        simp only [triggerPose, List.mem_append, List.mem_singleton] at hie
        rcases hie with hie | hie
        · simp at hie
        · cases hie
          rfl
  · -- verify
    unfold triggerVerification at h
    cases hpick : pickUnused s.content.verifications "verify" s.usedInteractions r with
    | none =>
      rw [hpick] at h
      simp only [Except.ok.injEq, Prod.mk.injEq] at h
      obtain ⟨hs, hevs⟩ := h
      subst hs
      exact ⟨rfl, rfl, rfl, rfl, rfl, Finset.Subset.refl _, by simp [← hevs]⟩
    | some val =>
      obtain ⟨v, used'⟩ := val
      rw [hpick] at h
      simp only [Except.ok.injEq, Prod.mk.injEq] at h
      obtain ⟨hs, hevs⟩ := h
      subst hs
      refine ⟨rfl, rfl, rfl, rfl, rfl, pickUnused_used_subset hpick, ?_⟩
      intro ie hie
      rw [← hevs] at hie
      simp only [triggerPose, List.mem_append, List.mem_cons, List.mem_singleton] at hie
      rcases hie with hie | hie | hie | hie
      · simp at hie
      · simp at hie
      · injection hie with h2
        rw [h2]
      · simp at hie
  · -- discover
    unfold triggerFeatureDiscovery at h
    cases hpick : pickUnused s.content.features "discover" s.usedInteractions r with
    | none =>
      rw [hpick] at h
      simp only [Except.ok.injEq, Prod.mk.injEq] at h
      obtain ⟨hs, hevs⟩ := h
      subst hs
      exact ⟨rfl, rfl, rfl, rfl, rfl, Finset.Subset.refl _, by simp [← hevs]⟩
    | some val =>
      obtain ⟨f, used'⟩ := val
      rw [hpick] at h
      simp only [Except.ok.injEq, Prod.mk.injEq] at h
      obtain ⟨hs, hevs⟩ := h
      subst hs
      refine ⟨rfl, rfl, rfl, rfl, rfl, pickUnused_used_subset hpick, ?_⟩
      intro ie hie
      rw [← hevs] at hie
      simp only [triggerPose, List.mem_append, List.mem_cons, List.mem_singleton] at hie
      rcases hie with hie | hie | hie | hie
      · simp at hie
      · simp at hie
      · injection hie with h2
        rw [h2]
      · simp at hie
  · -- default: no action
    simp only [Except.ok.injEq, Prod.mk.injEq] at h
    obtain ⟨hs, hevs⟩ := h
    subst hs
    exact ⟨rfl, rfl, rfl, rfl, rfl, Finset.Subset.refl _, by simp [← hevs]⟩

/-- What one successful tick does to the phase: while active, `currentPhase`
lands on the phase containing the current elapsed time; the lifecycle fields
survive, and the used-key set never shrinks. -/
theorem checkPhase_ok {s : ManagerState} {now r : Nat} {s' : ManagerState}
    {evs : List Event} (h : checkPhase s now r = Except.ok (s', evs)) :
    (s.isActive = true → s'.currentPhase = some (phaseNameAt (getElapsed s now))) ∧
    (s.isActive = false → s' = s ∧ evs = []) ∧
    s'.isActive = s.isActive ∧ s'.startTime = s.startTime ∧
    s'.character = s.character ∧ s'.content = s.content ∧
    s.usedInteractions ⊆ s'.usedInteractions ∧
    (s'.currentPhase = s.currentPhase → evs = []) ∧
    (∀ ie, Event.interaction ie ∈ evs → some ie.type = s'.currentPhase) := by
  unfold checkPhase at h
  by_cases hact : s.isActive = false
  · rw [if_pos hact] at h
    simp only [Except.ok.injEq, Prod.mk.injEq] at h
    obtain ⟨hs, hevs⟩ := h
    subst hs
    refine ⟨fun hc => ?_, fun _ => ⟨rfl, hevs.symm⟩, rfl, rfl, rfl, rfl,
      Finset.Subset.refl _, fun _ => hevs.symm, fun ie hie => ?_⟩
    · rw [hc] at hact; cases hact
    · rw [← hevs] at hie; cases hie
  · rw [if_neg hact] at h
    have hact' : s.isActive = true := by
      cases hb : s.isActive
      · exact absurd hb hact
      · rfl
    rw [findPhase_eq (getElapsed s now)] at h
    dsimp only at h
    by_cases hne : s.currentPhase ≠ some (phaseNameAt (getElapsed s now))
    · rw [if_pos hne] at h
      have htr := triggerPhaseInteraction_ok h
      simp only at htr
      obtain ⟨ht1, ht2, ht3, ht4, ht5, ht6, ht7⟩ := htr
      refine ⟨fun _ => ht1, fun hc => absurd hc hact, ht2, ht3, ht4, ht5, ht6, ?_, ?_⟩
      · intro hsame
        rw [ht1] at hsame
        exact absurd hsame.symm hne
      · intro ie hie
        rw [ht7 ie hie, ht1]
    · rw [if_neg hne] at h
      push_neg at hne
      simp only [Except.ok.injEq, Prod.mk.injEq] at h
      obtain ⟨hs, hevs⟩ := h
      subst hs
      refine ⟨fun _ => hne, fun hc => absurd hc hact, rfl, rfl, rfl, rfl,
        Finset.Subset.refl _, fun _ => hevs.symm, fun ie hie => ?_⟩
      rw [← hevs] at hie; cases hie

theorem getElapsed_mono (s : ManagerState) {n m : Nat} (h : n ≤ m) :
    getElapsed s n ≤ getElapsed s m := by
  unfold getElapsed
  cases s.startTime with
  | none => exact Nat.le_refl 0
  | some t => exact Nat.sub_le_sub_right h t

theorem getElapsed_startTime {s s' : ManagerState} (h : s'.startTime = s.startTime)
    (now : Nat) : getElapsed s' now = getElapsed s now := by
  unfold getElapsed
  rw [h]

/-- Core induction for the monotonic-phase property: from an active state whose
`currentPhase` is `none` or named by some already-seen elapsed time, a sorted
tick sequence produces a `currentPhase` trace that is a `phaseLE`-chain. -/
theorem runTrace_chain : ∀ (ticks : List (Nat × Nat)) (s : ManagerState) (prevNow : Nat),
    s.isActive = true →
    (s.currentPhase = none ∨
      s.currentPhase = some (phaseNameAt (getElapsed s prevNow))) →
    List.Chain (fun a b => a ≤ b) prevNow (ticks.map Prod.fst) →
    List.Chain' phaseLE
      (s.currentPhase :: (runTrace s ticks).map (fun e => e.1.currentPhase)) := by
  intro ticks
  induction ticks with
  | nil => intro s prevNow _ _ _; simp [runTrace, List.chain'_singleton]
  | cons tick rest ih =>
    intro s prevNow hact hinv hchain
    obtain ⟨now, r⟩ := tick
    simp only [List.map_cons] at hchain
    rw [List.chain_cons] at hchain
    obtain ⟨hprev, hchain'⟩ := hchain
    show List.Chain' phaseLE (s.currentPhase ::
      (runTrace s ((now, r) :: rest)).map (fun e => e.1.currentPhase))
    unfold runTrace
    cases hc : checkPhase s now r with
    | error e => simp [List.chain'_singleton]
    | ok val =>
      obtain ⟨s', evs⟩ := val
      have hok := checkPhase_ok hc
      have hcur' : s'.currentPhase = some (phaseNameAt (getElapsed s now)) := hok.1 hact
      have hact' : s'.isActive = true := by rw [hok.2.2.1, hact]
      have hst' : s'.startTime = s.startTime := hok.2.2.2.1
      rw [List.map_cons, List.chain'_cons]
      constructor
      · rcases hinv with hnone | hsome
        · right
          rw [hnone, hcur']
          simp [phaseIdxO]
        · by_cases heq : phaseNameAt (getElapsed s prevNow) = phaseNameAt (getElapsed s now)
          · left
            rw [hsome, hcur', heq]
          · right
            rw [hsome, hcur']
            simp only [phaseIdxO]
            have := phaseNameAt_strict _ _ (getElapsed_mono s hprev) heq
            omega
      · have : getElapsed s now = getElapsed s' now := (getElapsed_startTime hst' now).symm
        refine ih s' now hact' (Or.inr ?_) hchain'
        rw [hcur', this]

/-- Recognises an `onInteraction` callback of type `tip`. -/
def eventIsTip : Event → Bool
  | Event.interaction ie => ie.type == "tip"
  | _ => false

/-! ## Claim C2 -/

/-- C2: within one session (started, active, `currentPhase = none`), feeding the
tick any non-decreasing sequence of time samples yields a `currentPhase`
sequence that is non-decreasing in phase order (equal or strictly later at
each step), with every phase entered at most once; each single tick emits
events only when it commits a transition and all interaction events it emits
carry the type of the one phase just entered (so at most one phase-entry
action fires per tick); concretely, a tick at 3,000 ms followed by one at
20,000 ms moves `none → micro → fact` and never fires a `tip` action. -/
theorem c2_monotonic_phase_advance (s : ManagerState) (t₀ : Nat)
    (ticks : List (Nat × Nat)) (hact : s.isActive = true)
    (_hstart : s.startTime = some t₀) (hcur : s.currentPhase = none)
    (hsorted : List.Chain' (fun a b : Nat × Nat => a.1 ≤ b.1) ticks) :
    List.Chain' phaseLE
      (s.currentPhase :: (runTrace s ticks).map (fun e => e.1.currentPhase)) ∧
    (enteredOf
      (s.currentPhase :: (runTrace s ticks).map (fun e => e.1.currentPhase))).Nodup ∧
    (∀ s₁ (now r : Nat) s' evs, checkPhase s₁ now r = Except.ok (s', evs) →
      (s'.currentPhase = s₁.currentPhase → evs = []) ∧
      (∀ ie, Event.interaction ie ∈ evs → some ie.type = s'.currentPhase)) ∧
    ((runTrace (start (initialState "kyur") 0 "loading" none).1
        [(3000, 0), (20000, 0)]).map (fun e => e.1.currentPhase) =
      [some "micro", some "fact"] ∧
     ∀ pr ∈ runTrace (start (initialState "kyur") 0 "loading" none).1
        [(3000, 0), (20000, 0)], pr.2.filter eventIsTip = []) := by
  have h1 : List.Chain' (fun a b : Nat => a ≤ b) (ticks.map Prod.fst) :=
    (List.chain'_map Prod.fst).mpr hsorted
  have h2 : List.Chain (fun a b : Nat => a ≤ b) 0 (ticks.map Prod.fst) := by
    cases hmap : ticks.map Prod.fst with
    | nil => exact List.Chain.nil
    | cons b l =>
      rw [hmap] at h1
      exact List.chain_cons.mpr ⟨Nat.zero_le b, h1⟩
  have hchain := runTrace_chain ticks s 0 hact (Or.inl hcur) h2
  refine ⟨hchain, enteredOf_nodup _ hchain, ?_, by decide⟩
  intro s₁ now r s' evs h
  exact ⟨(checkPhase_ok h).2.2.2.2.2.2.2.1, (checkPhase_ok h).2.2.2.2.2.2.2.2⟩

/-- C2 witness: the scenario-B session itself. -/
theorem c2_monotonic_phase_advance_witness :
    List.Chain' phaseLE
      (((start (initialState "kyur") 0 "loading" none).1).currentPhase ::
        (runTrace (start (initialState "kyur") 0 "loading" none).1
          [(3000, 0), (20000, 0)]).map (fun e => e.1.currentPhase)) ∧
    (enteredOf (((start (initialState "kyur") 0 "loading" none).1).currentPhase ::
        (runTrace (start (initialState "kyur") 0 "loading" none).1
          [(3000, 0), (20000, 0)]).map (fun e => e.1.currentPhase))).Nodup ∧
    (∀ s₁ (now r : Nat) s' evs, checkPhase s₁ now r = Except.ok (s', evs) →
      (s'.currentPhase = s₁.currentPhase → evs = []) ∧
      (∀ ie, Event.interaction ie ∈ evs → some ie.type = s'.currentPhase)) ∧
    ((runTrace (start (initialState "kyur") 0 "loading" none).1
        [(3000, 0), (20000, 0)]).map (fun e => e.1.currentPhase) =
      [some "micro", some "fact"] ∧
     ∀ pr ∈ runTrace (start (initialState "kyur") 0 "loading" none).1
        [(3000, 0), (20000, 0)], pr.2.filter eventIsTip = []) :=
  c2_monotonic_phase_advance (start (initialState "kyur") 0 "loading" none).1 0
    [(3000, 0), (20000, 0)] rfl rfl rfl
    (by rw [List.chain'_cons]; exact ⟨by norm_num, List.chain'_singleton _⟩)

/-! ## Dispatch lemmas for the phase switch -/

theorem triggerPhaseInteraction_micro (s : ManagerState) (r : Nat) :
    triggerPhaseInteraction s "micro" r =
      (triggerMicroInteraction s r).map (fun evs => (s, evs)) := rfl

theorem triggerPhaseInteraction_tip (s : ManagerState) (r : Nat) :
    triggerPhaseInteraction s "tip" r = triggerTip s r := rfl

theorem triggerPhaseInteraction_fact (s : ManagerState) (r : Nat) :
    triggerPhaseInteraction s "fact" r = triggerFunFact s r := rfl

theorem triggerPhaseInteraction_verify (s : ManagerState) (r : Nat) :
    triggerPhaseInteraction s "verify" r = triggerVerification s r := rfl

theorem triggerPhaseInteraction_discover (s : ManagerState) (r : Nat) :
    triggerPhaseInteraction s "discover" r = triggerFeatureDiscovery s r := rfl

theorem pickRandom_nil {α : Type} (r : Nat) : pickRandom ([] : List α) r = none := rfl

/-! ## Claim C3 -/

/-- C3: on the default phase table every elapsed time lies in exactly one
phase's `[min, max)` range, adjacent phases are contiguous (`max` of each
equals `min` of the next) and the final phase is unbounded. -/
theorem c3_phase_partition :
    (∀ t : Nat, (phases.filter (fun p => inPhaseRange t p.2.1 p.2.2)).length = 1) ∧
    List.Chain' (fun a b => a.2.2 = some b.2.1) phases ∧
    (phases.getLast?.map (fun p => p.2.2)) = some none := by
  refine ⟨?_, ?_, ?_⟩
  · intro t
    rcases Nat.lt_or_ge t 5000 with h1 | h1
    · have g2 : ¬ 5000 ≤ t := by omega
      have g3 : ¬ 15000 ≤ t := by omega
      have g4 : ¬ 30000 ≤ t := by omega
      have g5 : ¬ 60000 ≤ t := by omega
      simp [phases, inPhaseRange, h1, g2, g3, g4, g5]
    rcases Nat.lt_or_ge t 15000 with h2 | h2
    · have g1 : ¬ t < 5000 := by omega
      have g2 : 5000 ≤ t := by omega
      have g3 : ¬ 15000 ≤ t := by omega
      have g4 : ¬ 30000 ≤ t := by omega
      have g5 : ¬ 60000 ≤ t := by omega
      simp [phases, inPhaseRange, h2, g1, g2, g3, g4, g5]
    rcases Nat.lt_or_ge t 30000 with h3 | h3
    · have g1 : ¬ t < 5000 := by omega
      have g2 : ¬ t < 15000 := by omega
      have g3 : 15000 ≤ t := by omega
      have g4 : ¬ 30000 ≤ t := by omega
      have g5 : ¬ 60000 ≤ t := by omega
      simp [phases, inPhaseRange, h3, g1, g2, g3, g4, g5, Nat.le_of_lt]
    rcases Nat.lt_or_ge t 60000 with h4 | h4
    · have g1 : ¬ t < 5000 := by omega
      have g2 : ¬ t < 15000 := by omega
      have g3 : ¬ t < 30000 := by omega
      have g4 : 30000 ≤ t := by omega
      have g5 : ¬ 60000 ≤ t := by omega
      simp [phases, inPhaseRange, h4, g1, g2, g3, g4, g5]
    · have g1 : ¬ t < 5000 := by omega
      have g2 : ¬ t < 15000 := by omega
      have g3 : ¬ t < 30000 := by omega
      have g4 : ¬ t < 60000 := by omega
      have g5 : 60000 ≤ t := by omega
      simp [phases, inPhaseRange, g1, g2, g3, g4, g5]
  · simp [phases, List.chain'_cons, List.chain'_singleton]
  · simp [phases]

/-! ## Claim C9 -/

/-- C9: `loadContent` replaces each top-level category present in the patch
wholesale — a character missing from the override loses its entries for that
category, with no deep merge — and leaves absent categories untouched. -/
theorem c9_loadContent_whole_category_replace (c : Content) (p : ContentPatch) :
    (∀ t, p.tips = some t → (loadContent c p).tips = t ∧
      ∀ ch, t.lookup ch = none → ((loadContent c p).tips).lookup ch = none) ∧
    (p.tips = none → (loadContent c p).tips = c.tips) ∧
    (∀ t, p.microPoses = some t → (loadContent c p).microPoses = t) ∧
    (p.microPoses = none → (loadContent c p).microPoses = c.microPoses) ∧
    (∀ t, p.funFacts = some t → (loadContent c p).funFacts = t) ∧
    (p.funFacts = none → (loadContent c p).funFacts = c.funFacts) ∧
    (∀ t, p.verifications = some t → (loadContent c p).verifications = t) ∧
    (p.verifications = none → (loadContent c p).verifications = c.verifications) ∧
    (∀ t, p.features = some t → (loadContent c p).features = t) ∧
    (p.features = none → (loadContent c p).features = c.features) := by
  refine ⟨?_, ?_, ?_, ?_, ?_, ?_, ?_, ?_, ?_, ?_⟩
  · intro t ht
    have heq : (loadContent c p).tips = t := by simp [loadContent, ht]
    exact ⟨heq, fun ch hch => by rw [heq]; exact hch⟩
  · intro ht; simp [loadContent, ht]
  · intro t ht; simp [loadContent, ht]
  · intro ht; simp [loadContent, ht]
  · intro t ht; simp [loadContent, ht]
  · intro ht; simp [loadContent, ht]
  · intro t ht; simp [loadContent, ht]
  · intro ht; simp [loadContent, ht]
  · intro t ht; simp [loadContent, ht]
  · intro ht; simp [loadContent, ht]

/-- C9 witness: overriding `tips` with a kyur-only table drops gwynn's tips
and leaves `funFacts` untouched. -/
theorem c9_loadContent_whole_category_replace_witness :
    (loadContent defaultContent { tips := some [("kyur", ["t1"])] }).tips =
      [("kyur", ["t1"])] ∧
    ((loadContent defaultContent
      { tips := some [("kyur", ["t1"])] }).tips).lookup "gwynn" = none ∧
    (loadContent defaultContent { tips := some [("kyur", ["t1"])] }).funFacts =
      defaultContent.funFacts :=
  ⟨((c9_loadContent_whole_category_replace defaultContent
      { tips := some [("kyur", ["t1"])] }).1 _ rfl).1,
   ((c9_loadContent_whole_category_replace defaultContent
      { tips := some [("kyur", ["t1"])] }).1 _ rfl).2 "gwynn" rfl,
   (c9_loadContent_whole_category_replace defaultContent
      { tips := some [("kyur", ["t1"])] }).2.2.2.2.2.1 rfl⟩

/-! ## Claim C10 -/

/-- C10 (implicit): when the resolved micro-pose list is empty, the ambient
micro draw is not guarded: `_pickRandom` yields `undefined` and the manager
still invokes `onPoseChange` (with the composite id built from the undefined
pose, i.e. `"{character}-undefined"`) and `onInteraction` (with an absent
pose), instead of skipping emission the way the `pickUnused` categories do. -/
theorem c10_micro_draw_unguarded_on_empty (s : ManagerState) (r : Nat)
    (h : resolveCategory s.content.microPoses s.character = some []) :
    triggerMicroInteraction s r = Except.ok
      [Event.poseChange (s.character ++ "-" ++ "undefined") none,
       Event.interaction { type := "micro", pose := none, message := none }] := by
  unfold triggerMicroInteraction
  rw [h]
  dsimp only
  rw [pickRandom_nil]
  simp [triggerPose, poseStr]

/-- C10 witness: a repository whose kyur micro-pose list is empty. -/
theorem c10_micro_draw_unguarded_on_empty_witness :
    triggerMicroInteraction
      { initialState "kyur" with
        content := { defaultContent with microPoses := [("kyur", [])] } } 0 =
      Except.ok
        [Event.poseChange ("kyur" ++ "-" ++ "undefined") none,
         Event.interaction { type := "micro", pose := none, message := none }] :=
  c10_micro_draw_unguarded_on_empty
    { initialState "kyur" with
      content := { defaultContent with microPoses := [("kyur", [])] } } 0 rfl

/-! ## Claim C6 -/

/-- C6 (amended): when the current character has no entry in a
character-scoped category and there is no `default` entry either, resolution
yields `undefined` (`none`) — not an empty list — and the downstream draw
throws a `TypeError` (`undefined.filter` inside `_pickUnused`), rather than
silently emitting nothing. -/
theorem c6_missing_default_raises (s : ManagerState) (r : Nat)
    (hchar : s.content.tips.lookup s.character = none)
    (hdef : s.content.tips.lookup "default" = none) :
    resolveCategory s.content.tips s.character = none ∧
    triggerTip s r = Except.error "TypeError: tips is undefined" := by
  have hres : resolveCategory s.content.tips s.character = none := by
    unfold resolveCategory
    rw [hchar, hdef]
    rfl
  refine ⟨hres, ?_⟩
  unfold triggerTip
  rw [hres]

/-- C6 witness: a repository whose `tips` category was replaced by an empty
table (no characters, no `default`). -/
theorem c6_missing_default_raises_witness :
    resolveCategory ({ defaultContent with tips := [] } : Content).tips "kyur" = none ∧
    triggerTip
      { initialState "kyur" with content := { defaultContent with tips := [] } } 0 =
      Except.error "TypeError: tips is undefined" :=
  c6_missing_default_raises
    { initialState "kyur" with content := { defaultContent with tips := [] } } 0 rfl rfl

/-- C6 counterexample: at that same input the claim's words fail — resolution
does not produce an empty list (it produces no list at all) and an error is
raised instead of a silent no-content tick. -/
theorem c6_counterexample :
    resolveCategory ({ defaultContent with tips := [] } : Content).tips "kyur" ≠
      some [] ∧
    triggerTip
      { initialState "kyur" with content := { defaultContent with tips := [] } } 0 =
      Except.error "TypeError: tips is undefined" :=
  ⟨by decide, rfl⟩

/-! ## Claim C4 -/

/-- C4: `start` always leaves `usedInteractions` empty, `currentPhase = none`
and the session active (whatever came before — including a second `start`
while active, or a `stop`/`start` cycle), so any index can be drawn again
(an index `i` draw from the cleared set returns `arr[i]`); and no other
operation ever removes used keys mid-session: ticks only grow the set, while
`stop`, `setCharacter`, the one-shot and `loadContent` leave it unchanged. -/
theorem c4_session_isolation :
    (∀ (s : ManagerState) (now : Nat) (pn : String) (ed : Option Nat),
      ((start s now pn ed).1).usedInteractions = ∅ ∧
      ((start s now pn ed).1).currentPhase = none ∧
      ((start s now pn ed).1).isActive = true ∧
      ((start s now pn ed).1).startTime = some now) ∧
    (∀ (arr : List String) (tag : String) (i : Nat), i < arr.length →
      (pickUnused arr tag (∅ : Finset String) i).map Prod.fst = arr.get? i) ∧
    (∀ (s : ManagerState) (now r : Nat) (s' : ManagerState) (evs : List Event),
      checkPhase s now r = Except.ok (s', evs) →
      s.usedInteractions ⊆ s'.usedInteractions) ∧
    (∀ (s : ManagerState) (now : Nat),
      ((stop s now).1).usedInteractions = s.usedInteractions) ∧
    (∀ (s : ManagerState) (c : String) (r : Nat) (s' : ManagerState) (evs : List Event),
      setCharacter s c r = Except.ok (s', evs) →
      s'.usedInteractions = s.usedInteractions) ∧
    (∀ (s : ManagerState) (r : Nat) (s' : ManagerState) (evs : List Event),
      fireOneShot s r = Except.ok (s', evs) → s'.usedInteractions = s.usedInteractions) ∧
    (∀ (s : ManagerState) (p : ContentPatch),
      ({ s with content := loadContent s.content p } : ManagerState).usedInteractions =
        s.usedInteractions) := by
  refine ⟨fun s now pn ed => ⟨rfl, rfl, rfl, rfl⟩, ?_, ?_, fun s now => rfl, ?_, ?_,
    fun s p => rfl⟩
  · intro arr tag i hi
    unfold pickUnused
    rw [unusedOf_no_keys arr tag ∅ (fun j _ => Finset.not_mem_empty _)]
    have hpr : pickRandom arr i = some arr[i] := by
      unfold pickRandom
      rw [Nat.mod_eq_of_lt hi, List.get?_eq_getElem?, List.getElem?_eq_getElem hi]
    rw [hpr]
    dsimp only
    have hmem : arr[i] ∈ arr := List.getElem_mem hi
    have hidx : arr.indexOf arr[i] < arr.length := List.indexOf_lt_length.2 hmem
    rw [List.getD_eq_getElem arr _ hidx, List.getElem_indexOf hidx,
      List.get?_eq_getElem?, List.getElem?_eq_getElem hi]
    rfl
  · intro s now r s' evs h
    exact (checkPhase_ok h).2.2.2.2.2.2.1
  · intro s c r s' evs h
    unfold setCharacter at h
    by_cases ha : ({ s with character := c } : ManagerState).isActive
    · rw [if_pos ha] at h
      cases hm : triggerMicroInteraction { s with character := c } r with
      | error e => rw [hm] at h; simp [Except.map] at h
      | ok evs₀ =>
        rw [hm] at h
        simp only [Except.map, Except.ok.injEq, Prod.mk.injEq] at h
        rw [← h.1]
    · rw [if_neg ha] at h
      simp only [Except.ok.injEq, Prod.mk.injEq] at h
      rw [← h.1]
  · intro s r s' evs h
    unfold fireOneShot at h
    by_cases ha : s.isActive
    · rw [if_pos ha] at h
      cases hm : triggerMicroInteraction s r with
      | error e => rw [hm] at h; simp [Except.map] at h
      | ok evs₀ =>
        rw [hm] at h
        simp only [Except.map, Except.ok.injEq, Prod.mk.injEq] at h
        rw [← h.1]
    · rw [if_neg ha] at h
      simp only [Except.ok.injEq, Prod.mk.injEq] at h
      rw [← h.1]

/-- C4 witness: an index used in a prior session is drawable right after the
reset. -/
theorem c4_session_isolation_witness :
    (pickUnused ["x", "y"] "tip" (∅ : Finset String) 1).map Prod.fst =
      (["x", "y"] : List String).get? 1 :=
  c4_session_isolation.2.1 ["x", "y"] "tip" 1 (by norm_num)

/-! ## Claim C5 -/

/-- C5: a phase entry whose `pickUnused` draw comes back `null` (category
exhausted) emits no event at all — no `onInteraction`, no
`onVerificationRequest`, no `onFeatureDiscovery` — yet `currentPhase` has
already been advanced to the new phase, for each of the four dedup phases. -/
theorem c5_exhausted_draw_still_advances :
    (∀ (s : ManagerState) (now r : Nat) (tips : List String),
      s.isActive = true → phaseNameAt (getElapsed s now) = "tip" →
      s.currentPhase ≠ some "tip" →
      resolveCategory s.content.tips s.character = some tips →
      pickUnused tips "tip" s.usedInteractions r = none →
      checkPhase s now r = Except.ok ({ s with currentPhase := some "tip" }, [])) ∧
    (∀ (s : ManagerState) (now r : Nat) (facts : List String),
      s.isActive = true → phaseNameAt (getElapsed s now) = "fact" →
      s.currentPhase ≠ some "fact" →
      resolveCategory s.content.funFacts s.character = some facts →
      pickUnused facts "fact" s.usedInteractions r = none →
      checkPhase s now r = Except.ok ({ s with currentPhase := some "fact" }, [])) ∧
    (∀ (s : ManagerState) (now r : Nat),
      s.isActive = true → phaseNameAt (getElapsed s now) = "verify" →
      s.currentPhase ≠ some "verify" →
      pickUnused s.content.verifications "verify" s.usedInteractions r = none →
      checkPhase s now r = Except.ok ({ s with currentPhase := some "verify" }, [])) ∧
    (∀ (s : ManagerState) (now r : Nat),
      s.isActive = true → phaseNameAt (getElapsed s now) = "discover" →
      s.currentPhase ≠ some "discover" →
      pickUnused s.content.features "discover" s.usedInteractions r = none →
      checkPhase s now r = Except.ok ({ s with currentPhase := some "discover" }, [])) := by
  refine ⟨?_, ?_, ?_, ?_⟩
  · intro s now r tips hact hph hne hres hpick
    unfold checkPhase
    rw [if_neg (by rw [hact]; simp), findPhase_eq, hph]
    dsimp only
    rw [if_pos hne, triggerPhaseInteraction_tip]
    unfold triggerTip
    dsimp only
    rw [hres]
    dsimp only
    rw [hpick]
  · intro s now r facts hact hph hne hres hpick
    unfold checkPhase
    rw [if_neg (by rw [hact]; simp), findPhase_eq, hph]
    dsimp only
    rw [if_pos hne, triggerPhaseInteraction_fact]
    unfold triggerFunFact
    dsimp only
    rw [hres]
    dsimp only
    rw [hpick]
  · intro s now r hact hph hne hpick
    unfold checkPhase
    rw [if_neg (by rw [hact]; simp), findPhase_eq, hph]
    dsimp only
    rw [if_pos hne, triggerPhaseInteraction_verify]
    unfold triggerVerification
    dsimp only
    rw [hpick]
  · intro s now r hact hph hne hpick
    unfold checkPhase
    rw [if_neg (by rw [hact]; simp), findPhase_eq, hph]
    dsimp only
    rw [if_pos hne, triggerPhaseInteraction_discover]
    unfold triggerFeatureDiscovery
    dsimp only
    rw [hpick]

/-- C5 witness: a session whose tip table is empty reaches elapsed 6,000 ms,
draws `null`, emits nothing, and still lands in the `tip` phase. -/
theorem c5_exhausted_draw_still_advances_witness :
    checkPhase
      { initialState "kyur" with
        isActive := true,
        startTime := some 0,
        content := { defaultContent with tips := [("default", [])] } } 6000 0 =
      Except.ok
        ({ { initialState "kyur" with
             isActive := true,
             startTime := some 0,
             content := { defaultContent with tips := [("default", [])] } } with
           currentPhase := some "tip" }, []) :=
  c5_exhausted_draw_still_advances.1
    { initialState "kyur" with
      isActive := true,
      startTime := some 0,
      content := { defaultContent with tips := [("default", [])] } }
    6000 0 [] rfl (by decide) (by decide) rfl rfl

/-! ## Claim C7 -/

/-- C7: `stop` deactivates the session and returns a summary whose duration is
`now` minus the start timestamp, whose `interactionsShown` is exactly the size
of `usedInteractions` (which ambient micro draws — in particular the 500 ms
one-shot, which leaves the state untouched — never contribute to), and whose
`phase` is the `currentPhase` at stop time; stopping a fresh session at
elapsed 2,000 ms concretely yields `phase = none`, a zero count, and duration
2,000 ms. -/
theorem c7_stop_summary :
    (∀ (s : ManagerState) (now t : Nat), s.startTime = some t →
      ((stop s now).2.1).duration = some (now - t)) ∧
    (∀ (s : ManagerState) (now : Nat),
      ((stop s now).2.1).interactionsShown = s.usedInteractions.card ∧
      ((stop s now).2.1).phase = s.currentPhase ∧
      ((stop s now).1).isActive = false) ∧
    (∀ (s : ManagerState) (r : Nat) (s' : ManagerState) (evs : List Event),
      fireOneShot s r = Except.ok (s', evs) → s' = s) ∧
    ((stop (start (initialState "kyur") 0 "loading" none).1 2000).2.1 =
      { duration := some 2000, interactionsShown := 0, phase := none }) := by
  refine ⟨?_, fun s now => ⟨rfl, rfl, rfl⟩, ?_, ?_⟩
  · intro s now t h
    simp [stop, h]
  · intro s r s' evs h
    unfold fireOneShot at h
    by_cases ha : s.isActive
    · rw [if_pos ha] at h
      cases hm : triggerMicroInteraction s r with
      | error e => rw [hm] at h; simp [Except.map] at h
      | ok evs₀ =>
        rw [hm] at h
        simp only [Except.map, Except.ok.injEq, Prod.mk.injEq] at h
        exact h.1.symm
    · rw [if_neg ha] at h
      simp only [Except.ok.injEq, Prod.mk.injEq] at h
      exact h.1.symm
  · decide

/-- C7 witness. -/
theorem c7_stop_summary_witness :
    ((stop (start (initialState "kyur") 0 "loading" none).1 2000).2.1).duration =
      some (2000 - 0) :=
  c7_stop_summary.1 (start (initialState "kyur") 0 "loading" none).1 2000 0 rfl

/-! ## Claim C8 -/

/-- C8: after `stop` the active flag is down; a one-shot that fires on an
inactive state no-ops (state unchanged, no events), a tick evaluated while
inactive leaves the whole state unchanged and invokes no callbacks, and a
second `stop` is safe: it leaves the stopped state exactly as it was and
reports the same count and phase. -/
theorem c8_no_side_effects_after_stop :
    (∀ (s : ManagerState) (now : Nat), ((stop s now).1).isActive = false) ∧
    (∀ (s : ManagerState) (r : Nat), s.isActive = false →
      fireOneShot s r = Except.ok (s, [])) ∧
    (∀ (s : ManagerState) (now r : Nat), s.isActive = false →
      checkPhase s now r = Except.ok (s, [])) ∧
    (∀ (s : ManagerState) (now now₂ : Nat),
      (stop (stop s now).1 now₂).1 = (stop s now).1 ∧
      ((stop (stop s now).1 now₂).2.1).interactionsShown =
        ((stop s now).2.1).interactionsShown ∧
      ((stop (stop s now).1 now₂).2.1).phase = ((stop s now).2.1).phase) := by
  refine ⟨fun s now => rfl, ?_, ?_, fun s now now₂ => ⟨rfl, rfl, rfl⟩⟩
  · intro s r h
    unfold fireOneShot
    rw [if_neg (by rw [h]; simp)]
  · intro s now r h
    unfold checkPhase
    rw [if_pos h]

/-- C8 witness: the stopped scenario-C session ignores a late one-shot and a
late tick. -/
theorem c8_no_side_effects_after_stop_witness :
    fireOneShot (stop (start (initialState "kyur") 0 "loading" none).1 2000).1 7 =
      Except.ok ((stop (start (initialState "kyur") 0 "loading" none).1 2000).1, []) ∧
    checkPhase (stop (start (initialState "kyur") 0 "loading" none).1 2000).1 9000 3 =
      Except.ok ((stop (start (initialState "kyur") 0 "loading" none).1 2000).1, []) :=
  ⟨c8_no_side_effects_after_stop.2.1 _ 7 rfl,
   c8_no_side_effects_after_stop.2.2.1 _ 9000 3 rfl⟩

end LoadingInteraction
